import Mathlib

/-!
Verification of the capnp-parse schema reducer: a two-pass walk over a
stream of schema nodes that (1) indexes annotation-declaration nodes by
numeric identity, and (2) reduces record / enumeration / interface nodes
to container entities whose children carry resolved annotation maps.

The embedding mirrors `src/main.rs`.  Rust `HashMap` becomes an
association list with overwrite-on-insert semantics; fallible capnp
decoding becomes `Except Unit`; a Rust panic (out-of-bounds slice or
index, `usize` underflow) becomes the distinguished error `panicked`,
kept apart from `decodeError` (the `?`-propagated decode failure).
Display names are modelled as sequences of characters, with the prefix
length counted in characters.
-/

set_option autoImplicit false

deriving instance DecidableEq for Except

namespace CapnpParse

/-- Errors a run can end with: a propagated decode error, or a panic. -/
inductive RunError where
  | decodeError
  | panicked
deriving DecidableEq, Repr

/-- A decoded value payload carried by an applied tag: void, text, or a
recognized-but-unsupported kind (the `_` arm of the `value::which` match). -/
inductive PayloadKind where
  | void
  | text (txt : String)
  | other
deriving DecidableEq, Repr

/-- One applied tag on a field/enumerant/method: the numeric identity of
the declaration it references, and its payload (which may fail to decode). -/
structure Anno where
  id : Nat
  value : Except Unit PayloadKind
deriving DecidableEq, Repr

/-- A child of a container node (field, enumerant or method): its local
name (which may fail to decode) and its applied tags. -/
structure Child where
  name : Except Unit String
  annos : List Anno
deriving DecidableEq, Repr

/-- The kind of a schema node, with the kind-specific children attached,
mirroring the `WhichReader` arms the program distinguishes; `otherKind`
stands for every remaining variant (file, const, ...). -/
inductive NodeKind where
  | structKind (fields : List Child)
  | enumKind (enumerants : List Child)
  | interfaceKind (methods : List Child)
  | annoDecl
  | otherKind
deriving DecidableEq, Repr

/-- A schema node: identity, display name (decoding may fail), the prefix
length marking where the local name begins, and the kind. -/
structure Node where
  id : Nat
  displayName : Except Unit String
  displayNamePrefixLen : Nat
  kind : NodeKind
deriving DecidableEq, Repr

/-- Insert into an association map with `HashMap::insert` semantics: the
new binding replaces any previous binding of the same key. -/
def mapInsert {κ : Type} [BEq κ] (m : List (κ × String)) (k : κ) (v : String) :
    List (κ × String) :=
  (k, v) :: m.filter (fun p => p.1 != k)

/-- Lookup in an association map, `HashMap::get` semantics. -/
def mapGet {κ : Type} [BEq κ] (m : List (κ × String)) (k : κ) : Option String :=
  (m.find? (fun p => p.1 == k)).map Prod.snd

/-- An output child entity: its local name and its resolved tag map
(string keys to string values). -/
structure Field where
  name : String
  annos : List (String × String)
deriving DecidableEq, Repr

/-- `Field::add_annotation` from the source: look the applied tag's
identity up in the index built by pass 1; if absent, do nothing; if
present, decode the payload (propagating a decode failure) and insert
the resolved name/value pair, where a void payload yields "true", a text
payload yields its text, and anything else yields "unhandled type". -/
def Field.add_anno (f : Field) (a : Anno) (anno_names : List (Nat × String)) :
    Except RunError Field :=
  match mapGet anno_names a.id with
  | some actual_name =>
    match a.value with
    | .error _ => .error .decodeError
    | .ok content =>
      let value : String :=
        match content with
        | .void => "true"
        | .text txt => txt
        | .other => "unhandled type"
      .ok { f with annos := mapInsert f.annos actual_name value }
  | none => .ok f

/-- The three-way payload policy of the resolver, as a standalone
function for stating claims: void is rendered "true", text is rendered
verbatim, any other recognized kind is rendered "unhandled type". -/
def payloadValue : PayloadKind → String
  | .void => "true"
  | .text txt => txt
  | .other => "unhandled type"

/-- A record container entity (`struct Struct` in the source). -/
structure Struct where
  name : String
  fields : List Field
deriving DecidableEq, Repr

/-- An enumeration container entity (`struct Enum` in the source). -/
structure Enum where
  name : String
  enumerants : List Field
deriving DecidableEq, Repr

/-- A service-interface container entity (`struct Interface`). -/
structure Interface where
  name : String
  methods : List Field
deriving DecidableEq, Repr

/-- The accumulated result model: the three container lists plus the
catch-all list of unrecognized node names (`struct Results`). -/
structure Results where
  structs : List Struct
  enums : List Enum
  interfaces : List Interface
  unk : List String
deriving DecidableEq, Repr

/-- `Results::add_struct`: push a fresh record container. -/
def Results.add_struct (r : Results) (name : String) : Results :=
  { r with structs := r.structs ++ [⟨name, []⟩] }

/-- `Results::get_current_struct`: `structs.len() - 1`; `none` models the
`usize` underflow panic when the list is empty. -/
def Results.get_current_struct (r : Results) : Option Nat :=
  if r.structs.length = 0 then none else some (r.structs.length - 1)

/-- `Results::add_enum`: push a fresh enumeration container. -/
def Results.add_enum (r : Results) (name : String) : Results :=
  { r with enums := r.enums ++ [⟨name, []⟩] }

/-- `Results::get_current_enum`: `enums.len() - 1` with the underflow
panic modelled as `none`. -/
def Results.get_current_enum (r : Results) : Option Nat :=
  if r.enums.length = 0 then none else some (r.enums.length - 1)

/-- `Results::add_interface`: push a fresh interface container. -/
def Results.add_interface (r : Results) (name : String) : Results :=
  { r with interfaces := r.interfaces ++ [⟨name, []⟩] }

/-- `Results::get_current_interface`: `interfaces.len() - 1` with the
underflow panic modelled as `none`. -/
def Results.get_current_interface (r : Results) : Option Nat :=
  if r.interfaces.length = 0 then none else some (r.interfaces.length - 1)

/-- `Results::add_unk`: push a display name onto the catch-all list. -/
def Results.add_unk (r : Results) (name : String) : Results :=
  { r with unk := r.unk ++ [name] }

/-- Indexed in-place update `xs[i] = f(xs[i])`, where an out-of-bounds
index is the Rust indexing panic and `f` itself may fail. -/
def modifyAtM {γ : Type} (xs : List γ) (i : Nat) (f : γ → Except RunError γ) :
    Except RunError (List γ) :=
  match xs[i]? with
  | none => .error .panicked
  | some x =>
    match f x with
    | .error e => .error e
    | .ok y => .ok (xs.set i y)

/-- The inner annotation loop of pass 2: for each applied tag, run
`add_annotation` on child `i` of container `idx`, re-indexing into the
container list each iteration exactly as the source does.  Generic over
the container type through its child-list getter and setter. -/
def annoFold {γ : Type} (anno_names : List (Nat × String)) (get : γ → List Field)
    (set : γ → List Field → γ) (idx i : Nat) :
    List γ → List Anno → Except RunError (List γ)
  | cs, [] => .ok cs
  | cs, a :: rest =>
    match modifyAtM cs idx (fun c =>
      match modifyAtM (get c) i (fun f => f.add_anno a anno_names) with
      | .error e => .error e
      | .ok fs => .ok (set c fs)) with
    | .error e => .error e
    | .ok cs1 => annoFold anno_names get set idx i cs1 rest

/-- The per-node child loop of pass 2: for the `i`-th declared child (in
order), decode its local name (a failure aborts), push a fresh child
entity onto container `idx`, then resolve its applied tags. -/
def childLoop {γ : Type} (anno_names : List (Nat × String)) (get : γ → List Field)
    (set : γ → List Field → γ) (idx : Nat) :
    List γ → List Child → Nat → Except RunError (List γ)
  | cs, [], _ => .ok cs
  | cs, child :: rest, i =>
    match child.name with
    | .error _ => .error .decodeError
    | .ok child_name =>
      match modifyAtM cs idx (fun c => .ok (set c (get c ++ [⟨child_name, []⟩]))) with
      | .error e => .error e
      | .ok cs1 =>
        match annoFold anno_names get set idx i cs1 child.annos with
        | .error e => .error e
        | .ok cs2 => childLoop anno_names get set idx cs2 rest (i + 1)

/-- One pass-2 iteration of the main node loop: decode the display name
(a failure aborts), then dispatch on the node's kind exactly as the
source `match node.which()?` does — record, enumeration and interface
nodes build a container and walk their children; everything else
(including annotation declarations) falls to the default arm, which
appends the display name to the catch-all list. -/
def step (anno_names : List (Nat × String)) (results : Results) (node : Node) :
    Except RunError Results :=
  match node.displayName with
  | .error _ => .error .decodeError
  | .ok node_name =>
    match node.kind with
    | .structKind fields =>
      let r1 := results.add_struct node_name
      match r1.get_current_struct with
      | none => .error .panicked
      | some idx =>
        match childLoop anno_names Struct.fields (fun s fs => { s with fields := fs })
            idx r1.structs fields 0 with
        | .error e => .error e
        | .ok l => .ok { r1 with structs := l }
    | .enumKind enumerants =>
      let r1 := results.add_enum node_name
      match r1.get_current_enum with
      | none => .error .panicked
      | some idx =>
        match childLoop anno_names Enum.enumerants (fun s fs => { s with enumerants := fs })
            idx r1.enums enumerants 0 with
        | .error e => .error e
        | .ok l => .ok { r1 with enums := l }
    | .interfaceKind methods =>
      let r1 := results.add_interface node_name
      match r1.get_current_interface with
      | none => .error .panicked
      | some idx =>
        match childLoop anno_names Interface.methods (fun s fs => { s with methods := fs })
            idx r1.interfaces methods 0 with
        | .error e => .error e
        | .ok l => .ok { r1 with interfaces := l }
    | _ => .ok (results.add_unk node_name)

/-- Pass 2 from a given accumulator: fold `step` over the node stream. -/
def pass2From (anno_names : List (Nat × String)) (results : Results) :
    List Node → Except RunError Results
  | [] => .ok results
  | node :: rest =>
    match step anno_names results node with
    | .error e => .error e
    | .ok r1 => pass2From anno_names r1 rest

/-- Pass 2: the tree reducer, starting from the empty result model. -/
def pass2 (anno_names : List (Nat × String)) (nodes : List Node) :
    Except RunError Results :=
  pass2From anno_names ⟨[], [], [], []⟩ nodes

/-- One pass-1 iteration: an annotation-declaration node has its display
name decoded (a failure aborts) and sliced at the prefix length — the
Rust slice `&name[prefix_len..]` panics when the prefix length exceeds
the name's length — and the local name is recorded under the node's
identity; every other kind leaves the index untouched. -/
def pass1Step (anno_names : List (Nat × String)) (node : Node) :
    Except RunError (List (Nat × String)) :=
  match node.kind with
  | .annoDecl =>
    match node.displayName with
    | .error _ => .error .decodeError
    | .ok node_name =>
      if node.displayNamePrefixLen ≤ node_name.length then
        .ok (mapInsert anno_names node.id (node_name.drop node.displayNamePrefixLen))
      else
        .error .panicked
  | _ => .ok anno_names

/-- Pass 1 from a given index accumulator. -/
def pass1From (anno_names : List (Nat × String)) :
    List Node → Except RunError (List (Nat × String))
  | [] => .ok anno_names
  | node :: rest =>
    match pass1Step anno_names node with
    | .error e => .error e
    | .ok m1 => pass1From m1 rest

/-- Pass 1: build the annotation-name index from the empty map. -/
def pass1 (nodes : List Node) : Except RunError (List (Nat × String)) :=
  pass1From [] nodes

/-- The whole run: pass 1, then pass 2 with the completed index. -/
def run (nodes : List Node) : Except RunError Results :=
  match pass1 nodes with
  | .error e => .error e
  | .ok anno_names => pass2 anno_names nodes

/-- Functional counterpart of the annotation loop on a single child. -/
def annoFoldF (anno_names : List (Nat × String)) (f : Field) :
    List Anno → Except RunError Field
  | [] => .ok f
  | a :: rest =>
    match f.add_anno a anno_names with
    | .error e => .error e
    | .ok f1 => annoFoldF anno_names f1 rest

/-- Functional counterpart of processing one declared child: decode its
local name, then resolve its applied tags starting from an empty map. -/
def mkField (anno_names : List (Nat × String)) (child : Child) :
    Except RunError Field :=
  match child.name with
  | .error _ => .error .decodeError
  | .ok child_name => annoFoldF anno_names ⟨child_name, []⟩ child.annos

/-- Functional counterpart of processing a whole child list in order. -/
def mkFields (anno_names : List (Nat × String)) :
    List Child → Except RunError (List Field)
  | [] => .ok []
  | child :: rest =>
    match mkField anno_names child with
    | .error e => .error e
    | .ok f =>
      match mkFields anno_names rest with
      | .error e => .error e
      | .ok fs => .ok (f :: fs)

/-- Whether a node is an annotation declaration. -/
def isAnnoDecl (n : Node) : Bool :=
  match n.kind with
  | .annoDecl => true
  | _ => false

/-- Whether a node is a record node. -/
def isStructNode (n : Node) : Bool :=
  match n.kind with
  | .structKind _ => true
  | _ => false

/-- Whether a node is an enumeration node. -/
def isEnumNode (n : Node) : Bool :=
  match n.kind with
  | .enumKind _ => true
  | _ => false

/-- Whether a node is a service-interface node. -/
def isInterfaceNode (n : Node) : Bool :=
  match n.kind with
  | .interfaceKind _ => true
  | _ => false

/-- Whether a node falls to the default arm of the pass-2 dispatch. -/
def isUnkNode (n : Node) : Bool :=
  match n.kind with
  | .annoDecl => true
  | .otherKind => true
  | _ => false

/-- The declared children of a node kind (empty for childless kinds). -/
def childrenOf : NodeKind → List Child
  | .structKind fields => fields
  | .enumKind enumerants => enumerants
  | .interfaceKind methods => methods
  | .annoDecl => []
  | .otherKind => []

/-- The local name pass 1 records for a node (defaulting on a name that
failed to decode; pass 1 never records such a node). -/
def stripName (n : Node) : String :=
  match n.displayName with
  | .ok dn => dn.drop n.displayNamePrefixLen
  | .error _ => ""

/-- The last annotation-declaration node of the stream with the given
identity — the binding that survives overwrite-on-insert. -/
def findDecl (nodes : List Node) (k : Nat) : Option Node :=
  nodes.reverse.find? (fun n => isAnnoDecl n && n.id == k)

/-- Whether a run outcome is the modelled panic. -/
def isPanicked {α : Type} : Except RunError α → Bool
  | .error .panicked => true
  | _ => false

/-- Correspondence between a record node and a produced record
container: same display name, and the fields correspond one-to-one, in
order, to the node's declared children by local name. -/
def relS (node : Node) (s : Struct) : Prop :=
  ∃ cs, node.kind = NodeKind.structKind cs ∧
    node.displayName = Except.ok s.name ∧
    List.Forall₂ (fun c f => c.name = Except.ok f.name) cs s.fields

/-- Correspondence between an enumeration node and a produced
enumeration container. -/
def relE (node : Node) (s : Enum) : Prop :=
  ∃ cs, node.kind = NodeKind.enumKind cs ∧
    node.displayName = Except.ok s.name ∧
    List.Forall₂ (fun c f => c.name = Except.ok f.name) cs s.enumerants

/-- Correspondence between a service-interface node and a produced
interface container. -/
def relI (node : Node) (s : Interface) : Prop :=
  ∃ cs, node.kind = NodeKind.interfaceKind cs ∧
    node.displayName = Except.ok s.name ∧
    List.Forall₂ (fun c f => c.name = Except.ok f.name) cs s.methods

theorem add_anno_resolved (f : Field) (a : Anno)
    (anno_names : List (Nat × String)) (actual_name : String) (p : PayloadKind)
    (hname : mapGet anno_names a.id = some actual_name)
    (hval : a.value = .ok p) :
    f.add_anno a anno_names =
      .ok { f with annos := mapInsert f.annos actual_name (payloadValue p) } := by
  cases p <;> simp [Field.add_anno, hname, hval, payloadValue]

theorem find?_filter_ne {κ : Type} [BEq κ] [LawfulBEq κ]
    (m : List (κ × String)) (k k2 : κ) (h : k2 ≠ k) :
    (m.filter (fun p => p.1 != k)).find? (fun p => p.1 == k2) =
      m.find? (fun p => p.1 == k2) := by
  induction m with
  | nil => rfl
  | cons hd tl ih =>
    rcases hd with ⟨a, b⟩
    by_cases hk : a = k
    · have h1 : (a != k) = false := by simp [hk]
      have h2 : (a == k2) = false := by
        subst hk
        exact beq_eq_false_iff_ne.mpr fun e => h e.symm
      rw [List.filter_cons]
      simp only [h1, Bool.false_eq_true, if_false, List.find?_cons, h2, ih]
    · have h1 : (a != k) = true := by simp [hk]
      rw [List.filter_cons]
      simp only [h1, if_true]
      by_cases hk2 : a = k2
      · have h2 : (a == k2) = true := by simp [hk2]
        rw [List.find?_cons, List.find?_cons]
        simp only [h2, cond_true]
      · have h2 : (a == k2) = false := by simp [hk2]
        rw [List.find?_cons, List.find?_cons]
        simp only [h2, cond_false, ih]

theorem mapGet_mapInsert_self {κ : Type} [BEq κ] [LawfulBEq κ]
    (m : List (κ × String)) (k : κ) (v : String) :
    mapGet (mapInsert m k v) k = some v := by
  simp [mapGet, mapInsert, List.find?_cons]

theorem mapGet_mapInsert_ne {κ : Type} [BEq κ] [LawfulBEq κ]
    (m : List (κ × String)) (k k2 : κ) (v : String) (h : k2 ≠ k) :
    mapGet (mapInsert m k v) k2 = mapGet m k2 := by
  have h2 : (k == k2) = false := beq_eq_false_iff_ne.mpr fun e => h e.symm
  simp [mapGet, mapInsert, List.find?_cons, h2, find?_filter_ne m k k2 h]

theorem find?_append_singleton {α : Type} (p : α → Bool) (l : List α) (x : α) :
    (l ++ [x]).find? p =
      match l.find? p with
      | some y => some y
      | none => if p x = true then some x else none := by
  induction l with
  | nil =>
    cases hp : p x <;> simp [List.find?, hp]
  | cons a as ih =>
    rw [List.cons_append, List.find?_cons, List.find?_cons]
    cases hpa : p a
    · simp only [cond_false, ih]
    · simp only [cond_true]

theorem findDecl_cons (node : Node) (rest : List Node) (k : Nat) :
    findDecl (node :: rest) k =
      match findDecl rest k with
      | some n => some n
      | none =>
        if (isAnnoDecl node && node.id == k) = true then some node else none := by
  unfold findDecl
  rw [List.reverse_cons, find?_append_singleton]
  cases hfr : List.find? (fun n => isAnnoDecl n && n.id == k) rest.reverse <;> rfl

theorem pass1From_char (nodes : List Node) :
    ∀ (m0 m : List (Nat × String)), pass1From m0 nodes = .ok m →
      ∀ k, mapGet m k =
        match findDecl nodes k with
        | some n => some (stripName n)
        | none => mapGet m0 k := by
  induction nodes with
  | nil =>
    intro m0 m h k
    rw [pass1From] at h
    cases h
    rfl
  | cons node rest ih =>
    intro m0 m h k
    rw [pass1From] at h
    cases hs : pass1Step m0 node with
    | error e => rw [hs] at h; cases h
    | ok m1 =>
      rw [hs] at h
      have ihk := ih m1 m h k
      rw [findDecl_cons]
      cases hfr : findDecl rest k with
      | some n => rw [ihk, hfr]
      | none =>
        rw [ihk, hfr]
        rcases node with ⟨nid, ndn, nplen, nkind⟩
        cases nkind with
        | annoDecl =>
          cases ndn with
          | error u => simp [pass1Step] at hs
          | ok dn =>
            simp only [pass1Step] at hs
            by_cases hb : nplen ≤ dn.length
            · rw [if_pos hb] at hs
              injection hs with hseq
              subst hseq
              by_cases hkk : nid = k
              · subst hkk
                simp [isAnnoDecl, stripName, mapGet_mapInsert_self]
              · have hne : (nid == k) = false := beq_eq_false_iff_ne.mpr hkk
                simp only [isAnnoDecl, Bool.true_and, hne, Bool.false_eq_true,
                  if_false]
                exact mapGet_mapInsert_ne _ _ _ _ fun e => hkk e.symm
            · rw [if_neg hb] at hs
              cases hs
        | structKind fields =>
          simp only [pass1Step] at hs
          injection hs with hseq
          subst hseq
          simp [isAnnoDecl]
        | enumKind enumerants =>
          simp only [pass1Step] at hs
          injection hs with hseq
          subst hseq
          simp [isAnnoDecl]
        | interfaceKind methods =>
          simp only [pass1Step] at hs
          injection hs with hseq
          subst hseq
          simp [isAnnoDecl]
        | otherKind =>
          simp only [pass1Step] at hs
          injection hs with hseq
          subst hseq
          simp [isAnnoDecl]

theorem pass1From_total (nodes : List Node) :
    (∀ node ∈ nodes, node.kind = NodeKind.annoDecl →
      ∃ dn, node.displayName = Except.ok dn ∧
        node.displayNamePrefixLen ≤ dn.length) →
    ∀ m0, ∃ m, pass1From m0 nodes = .ok m := by
  induction nodes with
  | nil => exact fun _ m0 => ⟨m0, rfl⟩
  | cons node rest ih =>
    intro h m0
    have hstep : ∃ m1, pass1Step m0 node = .ok m1 := by
      rcases node with ⟨nid, ndn, nplen, nkind⟩
      cases nkind with
      | annoDecl =>
        obtain ⟨dn, hdn, hle⟩ := h _ (List.mem_cons_self _ _) rfl
        cases ndn with
        | error u => exact absurd hdn (by simp)
        | ok s =>
          injection hdn with hseq
          subst hseq
          exact ⟨mapInsert m0 nid (s.drop nplen), by simp [pass1Step, hle]⟩
      | structKind fields => exact ⟨m0, rfl⟩
      | enumKind enumerants => exact ⟨m0, rfl⟩
      | interfaceKind methods => exact ⟨m0, rfl⟩
      | otherKind => exact ⟨m0, rfl⟩
    obtain ⟨m1, hm1⟩ := hstep
    obtain ⟨m, hm⟩ := ih (fun x hx => h x (List.mem_cons_of_mem _ hx)) m1
    exact ⟨m, by rw [pass1From, hm1]; exact hm⟩

/-- Claim C2: pass 1 maps the identity of every annotation-declaration
node to that node's display name with its first prefix-length characters
removed (under the collaborator invariant that identities are unique
across the stream), adds no entry for any identity not belonging to an
annotation-declaration node, and the run hands exactly the completed
pass-1 index to pass 2 (the index is never modified afterwards — pass 2
is a pure function of that value). -/
theorem claim_C2 (nodes : List Node) (m : List (Nat × String))
    (h : pass1 nodes = .ok m)
    (hu : nodes.Pairwise (fun n1 n2 => n1.id ≠ n2.id)) :
    (∀ node ∈ nodes, node.kind = NodeKind.annoDecl →
      ∀ dn, node.displayName = Except.ok dn →
        mapGet m node.id = some (dn.drop node.displayNamePrefixLen)) ∧
    (∀ k, (∀ node ∈ nodes, isAnnoDecl node = true → node.id ≠ k) →
      mapGet m k = none) ∧
    run nodes = pass2 m nodes := by
  refine ⟨?_, ?_, ?_⟩
  · intro node hmem hkind dn hdn
    have hchar := pass1From_char nodes [] m h node.id
    have hfd : findDecl nodes node.id = some node := by
      unfold findDecl
      cases hf : nodes.reverse.find? (fun n => isAnnoDecl n && n.id == node.id) with
      | none =>
        exfalso
        have hnone := List.find?_eq_none.mp hf node (List.mem_reverse.mpr hmem)
        simp [isAnnoDecl, hkind] at hnone
      | some n2 =>
        have hp := List.find?_some hf
        have hm2 : n2 ∈ nodes := List.mem_reverse.mp (List.mem_of_find?_eq_some hf)
        have hid : n2.id = node.id := by
          have hand := (Bool.and_eq_true _ _).mp hp
          exact eq_of_beq hand.2
        by_cases hne : n2 = node
        · rw [hne]
        · exfalso
          have hsym : Symmetric (fun n1 n2 : Node => n1.id ≠ n2.id) :=
            fun a b hab e => hab e.symm
          exact hu.forall hsym hm2 hmem hne hid
    rw [hchar, hfd]
    simp [stripName, hdn]
  · intro k hk
    have hchar := pass1From_char nodes [] m h k
    have hfd : findDecl nodes k = none := by
      unfold findDecl
      apply List.find?_eq_none.mpr
      intro x hx hpx
      have hand := (Bool.and_eq_true _ _).mp hpx
      exact hk x (List.mem_reverse.mp hx) hand.1 (eq_of_beq hand.2)
    rw [hchar, hfd]
    rfl
  · simp [run, h]

/-- Witness for C2 at a concrete input: a single annotation declaration
"Pkg.a" with prefix length 4 and identity 7 is indexed under 7, and an
unused identity has no entry. -/
theorem claim_C2_witness :
    mapGet [(7, "Pkg.a".drop 4)] 7 = some ("Pkg.a".drop 4) ∧
    mapGet [(7, "Pkg.a".drop 4)] 9 = none := by
  have h := claim_C2 [⟨7, Except.ok "Pkg.a", 4, NodeKind.annoDecl⟩]
    [(7, "Pkg.a".drop 4)] (by decide) (by simp)
  refine ⟨h.1 ⟨7, Except.ok "Pkg.a", 4, NodeKind.annoDecl⟩ (by simp) rfl "Pkg.a" rfl,
    h.2.1 9 ?_⟩
  intro node hn _
  simp only [List.mem_singleton] at hn
  subst hn
  decide

/-- Counterexample to C6 as stated: a stream whose single node's display
name decodes (to the empty string) but whose prefix length exceeds that
name's length makes pass 1 panic on the prefix slice, so building the
index does not succeed even though every display name decodes. -/
theorem claim_C6_cex :
    (∀ node ∈ [(⟨0, Except.ok "", 1, NodeKind.annoDecl⟩ : Node)],
      ∃ dn, node.displayName = Except.ok dn) ∧
    pass1 [⟨0, Except.ok "", 1, NodeKind.annoDecl⟩] = .error RunError.panicked := by
  constructor
  · intro node hn
    simp only [List.mem_singleton] at hn
    subst hn
    exact ⟨"", rfl⟩
  · decide

/-- Claim C6 (amended): pass 1 succeeds — never panics or errors — for
every input node stream whose display names decode, provided in addition
that each annotation-declaration node's prefix length is at most the
length of its decoded display name (otherwise the prefix slice panics);
malformed name content is passed through without further validation. -/
theorem claim_C6_amended (nodes : List Node)
    (hdec : ∀ node ∈ nodes, ∃ dn, node.displayName = Except.ok dn)
    (hpre : ∀ node ∈ nodes, node.kind = NodeKind.annoDecl →
      ∀ dn, node.displayName = Except.ok dn →
        node.displayNamePrefixLen ≤ dn.length) :
    ∃ m, pass1 nodes = .ok m := by
  apply pass1From_total nodes
  intro node hmem hkind
  obtain ⟨dn, hdn⟩ := hdec node hmem
  exact ⟨dn, hdn, hpre node hmem hkind dn hdn⟩

/-- Witness for the amended C6 at a concrete input: one well-formed
annotation declaration, for which index building succeeds. -/
theorem claim_C6_amended_witness :
    ∃ m, pass1 [(⟨7, Except.ok "Pkg.a", 4, NodeKind.annoDecl⟩ : Node)] = .ok m := by
  apply claim_C6_amended
  · intro node hn
    simp only [List.mem_singleton] at hn
    subst hn
    exact ⟨"Pkg.a", rfl⟩
  · intro node hn _ dn hdn
    simp only [List.mem_singleton] at hn
    subst hn
    injection hdn with hseq
    subst hseq
    decide

/-- Claim C1: for an annotation application whose identity is present in
the index, the resolver succeeds and inserts exactly one entry into the
owning entity's annotation map, keyed by the resolved name, whose value
follows the three-way payload policy (void yields "true", text yields
the decoded text verbatim, any other recognized kind yields
"unhandled type"); every other key of the map, and the entity's name,
are unchanged. -/
theorem claim_C1 (anno_names : List (Nat × String)) (f : Field) (a : Anno)
    (actual_name : String) (p : PayloadKind)
    (hname : mapGet anno_names a.id = some actual_name)
    (hval : a.value = .ok p) :
    (∃ f2, f.add_anno a anno_names = .ok f2 ∧
      mapGet f2.annos actual_name = some (payloadValue p) ∧
      (∀ k, k ≠ actual_name → mapGet f2.annos k = mapGet f.annos k) ∧
      f2.name = f.name) ∧
    payloadValue PayloadKind.void = "true" ∧
    (∀ txt, payloadValue (PayloadKind.text txt) = txt) ∧
    payloadValue PayloadKind.other = "unhandled type" := by
  refine ⟨⟨{ f with annos := mapInsert f.annos actual_name (payloadValue p) },
    ?_, ?_, ?_, rfl⟩, rfl, fun _ => rfl, rfl⟩
  · exact add_anno_resolved f a anno_names actual_name p hname hval
  · exact mapGet_mapInsert_self _ _ _
  · intro k hk
    exact mapGet_mapInsert_ne _ _ _ _ hk

/-- Witness for C1 at a concrete input: index maps identity 1 to "a",
payload is the text "v1", and the resulting map holds "a" maps-to "v1". -/
theorem claim_C1_witness :
    ∃ f2, Field.add_anno ⟨"fld", []⟩ ⟨1, .ok (.text "v1")⟩ [(1, "a")] = .ok f2 ∧
      mapGet f2.annos "a" = some (payloadValue (PayloadKind.text "v1")) := by
  obtain ⟨⟨f2, h1, h2, _, _⟩, _⟩ :=
    claim_C1 [(1, "a")] ⟨"fld", []⟩ ⟨1, .ok (.text "v1")⟩ "a" (.text "v1") rfl rfl
  exact ⟨f2, h1, h2⟩

/-- Claim C4: for an annotation application whose identity is not a key
of the index, the resolver returns the entity unchanged (so the map is
unchanged) and raises no error. -/
theorem claim_C4 (anno_names : List (Nat × String)) (f : Field) (a : Anno)
    (hname : mapGet anno_names a.id = none) :
    f.add_anno a anno_names = .ok f := by
  simp [Field.add_anno, hname]

/-- Witness for C4 at a concrete input: an empty index never resolves,
so the field is returned unchanged even though its payload is corrupt. -/
theorem claim_C4_witness :
    Field.add_anno ⟨"fld", [("x", "y")]⟩ ⟨5, .error ()⟩ [] =
      .ok ⟨"fld", [("x", "y")]⟩ :=
  claim_C4 [] ⟨"fld", [("x", "y")]⟩ ⟨5, .error ()⟩ rfl

/-- Claim C7: when two annotation applications on the same entity resolve
to the same name, processing the second after the first succeeds and the
final map holds the value of the later application (last-write-wins, no
error). -/
theorem claim_C7 (anno_names : List (Nat × String)) (f : Field)
    (a1 a2 : Anno) (nm : String) (p1 p2 : PayloadKind)
    (h1 : mapGet anno_names a1.id = some nm)
    (h2 : mapGet anno_names a2.id = some nm)
    (hv1 : a1.value = .ok p1) (hv2 : a2.value = .ok p2) :
    ∃ f1 f2, f.add_anno a1 anno_names = .ok f1 ∧
      f1.add_anno a2 anno_names = .ok f2 ∧
      mapGet f2.annos nm = some (payloadValue p2) := by
  refine ⟨_, _, add_anno_resolved f a1 anno_names nm p1 h1 hv1,
    add_anno_resolved _ a2 anno_names nm p2 h2 hv2, ?_⟩
  exact mapGet_mapInsert_self _ _ _

/-- Witness for C7 at a concrete input: two applications of identity 1
with text payloads "v1" then "v2"; the final map holds "a" maps-to "v2". -/
theorem claim_C7_witness :
    ∃ f1 f2, Field.add_anno ⟨"fld", []⟩ ⟨1, .ok (.text "v1")⟩ [(1, "a")] = .ok f1 ∧
      Field.add_anno f1 ⟨1, .ok (.text "v2")⟩ [(1, "a")] = .ok f2 ∧
      mapGet f2.annos "a" = some (payloadValue (PayloadKind.text "v2")) :=
  claim_C7 [(1, "a")] ⟨"fld", []⟩ ⟨1, .ok (.text "v1")⟩ ⟨1, .ok (.text "v2")⟩
    "a" (.text "v1") (.text "v2") rfl rfl rfl rfl

theorem lt_of_getElem? {α : Type} {l : List α} {i : Nat} {x : α}
    (h : l[i]? = some x) : i < l.length := by
  obtain ⟨h1, _⟩ := List.getElem?_eq_some.mp h
  exact h1

theorem set_append_last {α : Type} (l : List α) (x y : α) :
    (l ++ [x]).set l.length y = l ++ [y] := by
  induction l with
  | nil => rfl
  | cons a as ih =>
    rw [List.cons_append, List.length_cons, List.set_cons_succ, ih,
      List.cons_append]

theorem set_self_of_getElem? {α : Type} (l : List α) (i : Nat) (x : α)
    (h : l[i]? = some x) : l.set i x = l := by
  induction l generalizing i with
  | nil => cases h
  | cons a as ih =>
    cases i with
    | zero =>
      rw [List.getElem?_cons_zero] at h
      injection h with h0
      rw [List.set_cons_zero, h0]
    | succ n =>
      rw [List.getElem?_cons_succ] at h
      rw [List.set_cons_succ, ih n h]

theorem annoFold_eq {γ : Type} (anno_names : List (Nat × String))
    (get : γ → List Field) (set : γ → List Field → γ)
    (hgs : ∀ c fs, get (set c fs) = fs)
    (hss : ∀ c fs fs2, set (set c fs) fs2 = set c fs2)
    (hid : ∀ c, set c (get c) = c)
    (idx i : Nat) (annos : List Anno) :
    ∀ (cs : List γ) (c : γ) (f : Field),
      cs[idx]? = some c → (get c)[i]? = some f →
      annoFold anno_names get set idx i cs annos =
        match annoFoldF anno_names f annos with
        | .ok f2 => .ok (cs.set idx (set c ((get c).set i f2)))
        | .error e => .error e := by
  induction annos with
  | nil =>
    intro cs c f hc hf
    simp only [annoFold, annoFoldF]
    rw [set_self_of_getElem? _ _ _ hf, hid, set_self_of_getElem? _ _ _ hc]
  | cons a rest ih =>
    intro cs c f hc hf
    simp only [annoFold, annoFoldF]
    cases ha : f.add_anno a anno_names with
    | error e => simp [modifyAtM, hc, hf, ha]
    | ok f1 =>
      have hlt : idx < cs.length := lt_of_getElem? hc
      have hlti : i < (get c).length := lt_of_getElem? hf
      have hc1 : (cs.set idx (set c ((get c).set i f1)))[idx]? =
          some (set c ((get c).set i f1)) := List.getElem?_set_self hlt
      have hf1 : (get (set c ((get c).set i f1)))[i]? = some f1 := by
        rw [hgs]
        exact List.getElem?_set_self hlti
      have hrec := ih (cs.set idx (set c ((get c).set i f1)))
        (set c ((get c).set i f1)) f1 hc1 hf1
      simp only [modifyAtM, hc, hf, ha]
      rw [hrec]
      cases annoFoldF anno_names f1 rest with
      | error e => rfl
      | ok f2 => simp only [List.set_set, hss, hgs]

theorem childLoop_eq {γ : Type} (anno_names : List (Nat × String))
    (get : γ → List Field) (set : γ → List Field → γ)
    (hgs : ∀ c fs, get (set c fs) = fs)
    (hss : ∀ c fs fs2, set (set c fs) fs2 = set c fs2)
    (hid : ∀ c, set c (get c) = c)
    (idx : Nat) (children : List Child) :
    ∀ (cs : List γ) (c : γ), cs[idx]? = some c →
      childLoop anno_names get set idx cs children (get c).length =
        match mkFields anno_names children with
        | .ok fs => .ok (cs.set idx (set c (get c ++ fs)))
        | .error e => .error e := by
  induction children with
  | nil =>
    intro cs c hc
    simp only [childLoop, mkFields]
    rw [List.append_nil, hid, set_self_of_getElem? _ _ _ hc]
  | cons child rest ih =>
    intro cs c hc
    simp only [childLoop, mkFields]
    cases hn : child.name with
    | error u => simp [mkField, hn]
    | ok child_name =>
      have hlt : idx < cs.length := lt_of_getElem? hc
      simp only [modifyAtM, hc, mkField, hn]
      have hc1 : (cs.set idx (set c (get c ++ [⟨child_name, []⟩])))[idx]? =
          some (set c (get c ++ [⟨child_name, []⟩])) := List.getElem?_set_self hlt
      have hf0 : (get (set c (get c ++ [⟨child_name, []⟩])))[(get c).length]? =
          some (⟨child_name, []⟩ : Field) := by
        rw [hgs]
        exact List.getElem?_concat_length _ _
      have hanno := annoFold_eq anno_names get set hgs hss hid idx (get c).length
        child.annos _ _ ⟨child_name, []⟩ hc1 hf0
      rw [hanno]
      cases hmf : annoFoldF anno_names ⟨child_name, []⟩ child.annos with
      | error e => rfl
      | ok f2 =>
        simp only [List.set_set, hss, hgs, set_append_last]
        have hc2 : (cs.set idx (set c (get c ++ [f2])))[idx]? =
            some (set c (get c ++ [f2])) := List.getElem?_set_self hlt
        have hrec := ih _ _ hc2
        have hlen2 : (get (set c (get c ++ [f2]))).length = (get c).length + 1 := by
          rw [hgs]
          simp
        rw [hlen2] at hrec
        rw [hrec]
        cases hmr : mkFields anno_names rest with
        | error e => rfl
        | ok fs =>
          simp only [List.set_set, hss, hgs, List.append_assoc,
            List.singleton_append]

theorem get_current_struct_add (r : Results) (nm : String) :
    (r.add_struct nm).get_current_struct = some r.structs.length := by
  simp [Results.add_struct, Results.get_current_struct]

theorem get_current_enum_add (r : Results) (nm : String) :
    (r.add_enum nm).get_current_enum = some r.enums.length := by
  simp [Results.add_enum, Results.get_current_enum]

theorem get_current_interface_add (r : Results) (nm : String) :
    (r.add_interface nm).get_current_interface = some r.interfaces.length := by
  simp [Results.add_interface, Results.get_current_interface]

theorem step_structKind (anno_names : List (Nat × String)) (results : Results)
    (node : Node) (fields : List Child) (node_name : String)
    (hk : node.kind = .structKind fields) (hn : node.displayName = .ok node_name) :
    step anno_names results node =
      match mkFields anno_names fields with
      | .ok fs =>
        .ok { results with structs := results.structs ++ [⟨node_name, fs⟩] }
      | .error e => .error e := by
  simp only [step, hn, hk, get_current_struct_add]
  have hc : (results.add_struct node_name).structs[results.structs.length]? =
      some ⟨node_name, []⟩ := by
    simp only [Results.add_struct]
    exact List.getElem?_concat_length _ _
  have hcl := childLoop_eq anno_names Struct.fields
    (fun s fs => { s with fields := fs }) (fun c fs => rfl)
    (fun c fs fs2 => rfl) (fun c => rfl) results.structs.length fields _ _ hc
  have h0 : (Struct.fields (⟨node_name, []⟩ : Struct)).length = 0 := rfl
  rw [h0] at hcl
  rw [hcl]
  cases hmk : mkFields anno_names fields with
  | error e => rfl
  | ok fs => simp [Results.add_struct, set_append_last]

theorem step_enumKind (anno_names : List (Nat × String)) (results : Results)
    (node : Node) (enumerants : List Child) (node_name : String)
    (hk : node.kind = .enumKind enumerants) (hn : node.displayName = .ok node_name) :
    step anno_names results node =
      match mkFields anno_names enumerants with
      | .ok fs =>
        .ok { results with enums := results.enums ++ [⟨node_name, fs⟩] }
      | .error e => .error e := by
  simp only [step, hn, hk, get_current_enum_add]
  have hc : (results.add_enum node_name).enums[results.enums.length]? =
      some ⟨node_name, []⟩ := by
    simp only [Results.add_enum]
    exact List.getElem?_concat_length _ _
  have hcl := childLoop_eq anno_names Enum.enumerants
    (fun s fs => { s with enumerants := fs }) (fun c fs => rfl)
    (fun c fs fs2 => rfl) (fun c => rfl) results.enums.length enumerants _ _ hc
  have h0 : (Enum.enumerants (⟨node_name, []⟩ : Enum)).length = 0 := rfl
  rw [h0] at hcl
  rw [hcl]
  cases hmk : mkFields anno_names enumerants with
  | error e => rfl
  | ok fs => simp [Results.add_enum, set_append_last]

theorem step_interfaceKind (anno_names : List (Nat × String)) (results : Results)
    (node : Node) (methods : List Child) (node_name : String)
    (hk : node.kind = .interfaceKind methods) (hn : node.displayName = .ok node_name) :
    step anno_names results node =
      match mkFields anno_names methods with
      | .ok fs =>
        .ok { results with interfaces := results.interfaces ++ [⟨node_name, fs⟩] }
      | .error e => .error e := by
  simp only [step, hn, hk, get_current_interface_add]
  have hc : (results.add_interface node_name).interfaces[results.interfaces.length]? =
      some ⟨node_name, []⟩ := by
    simp only [Results.add_interface]
    exact List.getElem?_concat_length _ _
  have hcl := childLoop_eq anno_names Interface.methods
    (fun s fs => { s with methods := fs }) (fun c fs => rfl)
    (fun c fs fs2 => rfl) (fun c => rfl) results.interfaces.length methods _ _ hc
  have h0 : (Interface.methods (⟨node_name, []⟩ : Interface)).length = 0 := rfl
  rw [h0] at hcl
  rw [hcl]
  cases hmk : mkFields anno_names methods with
  | error e => rfl
  | ok fs => simp [Results.add_interface, set_append_last]

theorem step_annoDecl (anno_names : List (Nat × String)) (results : Results)
    (node : Node) (node_name : String)
    (hk : node.kind = .annoDecl) (hn : node.displayName = .ok node_name) :
    step anno_names results node = .ok (results.add_unk node_name) := by
  simp [step, hn, hk]

theorem step_otherKind (anno_names : List (Nat × String)) (results : Results)
    (node : Node) (node_name : String)
    (hk : node.kind = .otherKind) (hn : node.displayName = .ok node_name) :
    step anno_names results node = .ok (results.add_unk node_name) := by
  simp [step, hn, hk]

theorem add_anno_ok_name (f : Field) (a : Anno) (anno_names : List (Nat × String))
    (f1 : Field) (h : f.add_anno a anno_names = .ok f1) : f1.name = f.name := by
  unfold Field.add_anno at h
  cases hsm : mapGet anno_names a.id with
  | none =>
    rw [hsm] at h
    injection h with he
    rw [← he]
  | some nm =>
    rw [hsm] at h
    cases hv : a.value with
    | error u => rw [hv] at h; cases h
    | ok p =>
      rw [hv] at h
      injection h with he
      rw [← he]

theorem add_anno_error_decode (f : Field) (a : Anno)
    (anno_names : List (Nat × String)) (e : RunError)
    (h : f.add_anno a anno_names = .error e) : e = RunError.decodeError := by
  unfold Field.add_anno at h
  cases hsm : mapGet anno_names a.id with
  | none => rw [hsm] at h; cases h
  | some nm =>
    rw [hsm] at h
    cases hv : a.value with
    | error u =>
      rw [hv] at h
      injection h with he
      rw [he]
    | ok p => rw [hv] at h; cases h

theorem annoFoldF_ok_name (anno_names : List (Nat × String)) (annos : List Anno) :
    ∀ (f f2 : Field), annoFoldF anno_names f annos = .ok f2 → f2.name = f.name := by
  induction annos with
  | nil =>
    intro f f2 h
    rw [annoFoldF] at h
    injection h with he
    rw [he]
  | cons a rest ih =>
    intro f f2 h
    rw [annoFoldF] at h
    cases ha : f.add_anno a anno_names with
    | error e => rw [ha] at h; cases h
    | ok f1 =>
      rw [ha] at h
      rw [ih f1 f2 h, add_anno_ok_name f a anno_names f1 ha]

theorem annoFoldF_error_decode (anno_names : List (Nat × String))
    (annos : List Anno) :
    ∀ (f : Field) (e : RunError), annoFoldF anno_names f annos = .error e →
      e = RunError.decodeError := by
  induction annos with
  | nil => intro f e h; cases h
  | cons a rest ih =>
    intro f e h
    rw [annoFoldF] at h
    cases ha : f.add_anno a anno_names with
    | error e1 =>
      rw [ha] at h
      injection h with he
      rw [← he]
      exact add_anno_error_decode f a anno_names e1 ha
    | ok f1 =>
      rw [ha] at h
      exact ih f1 e h

theorem annoFoldF_ok_values (anno_names : List (Nat × String))
    (annos : List Anno) :
    ∀ (f f2 : Field), annoFoldF anno_names f annos = .ok f2 →
      ∀ a ∈ annos, (mapGet anno_names a.id).isSome = true →
        ∃ p, a.value = Except.ok p := by
  induction annos with
  | nil => intro f f2 _ a ha; cases ha
  | cons a0 rest ih =>
    intro f f2 h a ha hsome
    rw [annoFoldF] at h
    cases ha0 : f.add_anno a0 anno_names with
    | error e => rw [ha0] at h; cases h
    | ok f1 =>
      rw [ha0] at h
      rcases List.mem_cons.mp ha with he | hmem
      · subst he
        cases hsm : mapGet anno_names a.id with
        | none => rw [hsm] at hsome; cases hsome
        | some nm =>
          cases hv : a.value with
          | ok p => exact ⟨p, rfl⟩
          | error u =>
            exfalso
            unfold Field.add_anno at ha0
            rw [hsm, hv] at ha0
            cases ha0
      · exact ih f1 f2 h a hmem hsome

theorem mkField_ok_name (anno_names : List (Nat × String)) (child : Child)
    (f : Field) (h : mkField anno_names child = .ok f) :
    child.name = Except.ok f.name := by
  unfold mkField at h
  cases hn : child.name with
  | error u => rw [hn] at h; cases h
  | ok nm =>
    rw [hn] at h
    rw [annoFoldF_ok_name anno_names child.annos _ f h]

theorem mkField_error_decode (anno_names : List (Nat × String)) (child : Child)
    (e : RunError) (h : mkField anno_names child = .error e) :
    e = RunError.decodeError := by
  unfold mkField at h
  cases hn : child.name with
  | error u =>
    rw [hn] at h
    injection h with he
    rw [he]
  | ok nm =>
    rw [hn] at h
    exact annoFoldF_error_decode anno_names child.annos _ e h

theorem mkFields_ok_names (anno_names : List (Nat × String))
    (children : List Child) :
    ∀ fs, mkFields anno_names children = .ok fs →
      List.Forall₂ (fun c f => c.name = Except.ok f.name) children fs := by
  induction children with
  | nil =>
    intro fs h
    rw [mkFields] at h
    injection h with he
    rw [← he]
    exact List.Forall₂.nil
  | cons child rest ih =>
    intro fs h
    rw [mkFields] at h
    cases hmf : mkField anno_names child with
    | error e => rw [hmf] at h; cases h
    | ok f =>
      rw [hmf] at h
      cases hmr : mkFields anno_names rest with
      | error e => rw [hmr] at h; cases h
      | ok fs1 =>
        rw [hmr] at h
        injection h with he
        rw [← he]
        exact List.Forall₂.cons (mkField_ok_name anno_names child f hmf) (ih fs1 hmr)

theorem mkFields_error_decode (anno_names : List (Nat × String))
    (children : List Child) :
    ∀ e, mkFields anno_names children = .error e → e = RunError.decodeError := by
  induction children with
  | nil => intro e h; cases h
  | cons child rest ih =>
    intro e h
    rw [mkFields] at h
    cases hmf : mkField anno_names child with
    | error e1 =>
      rw [hmf] at h
      injection h with he
      rw [← he]
      exact mkField_error_decode anno_names child e1 hmf
    | ok f =>
      rw [hmf] at h
      cases hmr : mkFields anno_names rest with
      | error e1 =>
        rw [hmr] at h
        injection h with he
        rw [← he]
        exact ih e1 hmr
      | ok fs1 => rw [hmr] at h; cases h

theorem mkFields_ok_forall (anno_names : List (Nat × String))
    (children : List Child) :
    ∀ fs, mkFields anno_names children = .ok fs →
      ∀ c ∈ children, ∃ f, mkField anno_names c = .ok f := by
  induction children with
  | nil => intro fs _ c hc; cases hc
  | cons child rest ih =>
    intro fs h c hc
    rw [mkFields] at h
    cases hmf : mkField anno_names child with
    | error e => rw [hmf] at h; cases h
    | ok f =>
      rw [hmf] at h
      cases hmr : mkFields anno_names rest with
      | error e => rw [hmr] at h; cases h
      | ok fs1 =>
        rcases List.mem_cons.mp hc with he | hmem
        · subst he
          exact ⟨f, hmf⟩
        · exact ih fs1 hmr c hmem

theorem step_name_error (anno_names : List (Nat × String)) (results : Results)
    (node : Node) (u : Unit) (hn : node.displayName = .error u) :
    step anno_names results node = .error RunError.decodeError := by
  simp [step, hn]

theorem pass2From_lists (anno_names : List (Nat × String)) (nodes : List Node) :
    ∀ (r0 r : Results), pass2From anno_names r0 nodes = .ok r →
      (∃ ds, r.structs = r0.structs ++ ds ∧
        List.Forall₂ relS (nodes.filter isStructNode) ds) ∧
      (∃ ds, r.enums = r0.enums ++ ds ∧
        List.Forall₂ relE (nodes.filter isEnumNode) ds) ∧
      (∃ ds, r.interfaces = r0.interfaces ++ ds ∧
        List.Forall₂ relI (nodes.filter isInterfaceNode) ds) ∧
      (∃ ds, r.unk = r0.unk ++ ds ∧
        List.Forall₂ (fun node nm => node.displayName = Except.ok nm)
          (nodes.filter isUnkNode) ds) := by
  induction nodes with
  | nil =>
    intro r0 r h
    rw [pass2From] at h
    injection h with he
    subst he
    exact ⟨⟨[], by simp, List.Forall₂.nil⟩, ⟨[], by simp, List.Forall₂.nil⟩,
      ⟨[], by simp, List.Forall₂.nil⟩, ⟨[], by simp, List.Forall₂.nil⟩⟩
  | cons node rest ih =>
    intro r0 r h
    rw [pass2From] at h
    cases hstep : step anno_names r0 node with
    | error e => rw [hstep] at h; cases h
    | ok r1 =>
      rw [hstep] at h
      cases hdn : node.displayName with
      | error u =>
        rw [step_name_error anno_names r0 node u hdn] at hstep
        cases hstep
      | ok dn =>
        cases hknd : node.kind with
        | structKind cs =>
          rw [step_structKind anno_names r0 node cs dn hknd hdn] at hstep
          cases hmk : mkFields anno_names cs with
          | error e => rw [hmk] at hstep; cases hstep
          | ok fs =>
            rw [hmk] at hstep
            injection hstep with he1
            subst he1
            obtain ⟨⟨ds, hds, hfs⟩, ⟨de, hde, hfe⟩, ⟨di, hdi, hfi⟩,
              ⟨du, hdu, hfu⟩⟩ := ih _ r h
            refine ⟨⟨⟨dn, fs⟩ :: ds, ?_, ?_⟩, ⟨de, hde, ?_⟩, ⟨di, hdi, ?_⟩,
              ⟨du, hdu, ?_⟩⟩
            · rw [hds, List.append_assoc, List.singleton_append]
            · rw [List.filter_cons]
              simp only [isStructNode, hknd, if_true]
              exact List.Forall₂.cons ⟨cs, hknd, hdn, mkFields_ok_names _ _ fs hmk⟩ hfs
            · rw [List.filter_cons]
              simp only [isEnumNode, hknd, Bool.false_eq_true, if_false]
              exact hfe
            · rw [List.filter_cons]
              simp only [isInterfaceNode, hknd, Bool.false_eq_true, if_false]
              exact hfi
            · rw [List.filter_cons]
              simp only [isUnkNode, hknd, Bool.false_eq_true, if_false]
              exact hfu
        | enumKind cs =>
          rw [step_enumKind anno_names r0 node cs dn hknd hdn] at hstep
          cases hmk : mkFields anno_names cs with
          | error e => rw [hmk] at hstep; cases hstep
          | ok fs =>
            rw [hmk] at hstep
            injection hstep with he1
            subst he1
            obtain ⟨⟨ds, hds, hfs⟩, ⟨de, hde, hfe⟩, ⟨di, hdi, hfi⟩,
              ⟨du, hdu, hfu⟩⟩ := ih _ r h
            refine ⟨⟨ds, hds, ?_⟩, ⟨⟨dn, fs⟩ :: de, ?_, ?_⟩, ⟨di, hdi, ?_⟩,
              ⟨du, hdu, ?_⟩⟩
            · rw [List.filter_cons]
              simp only [isStructNode, hknd, Bool.false_eq_true, if_false]
              exact hfs
            · rw [hde, List.append_assoc, List.singleton_append]
            · rw [List.filter_cons]
              simp only [isEnumNode, hknd, if_true]
              exact List.Forall₂.cons ⟨cs, hknd, hdn, mkFields_ok_names _ _ fs hmk⟩ hfe
            · rw [List.filter_cons]
              simp only [isInterfaceNode, hknd, Bool.false_eq_true, if_false]
              exact hfi
            · rw [List.filter_cons]
              simp only [isUnkNode, hknd, Bool.false_eq_true, if_false]
              exact hfu
        | interfaceKind cs =>
          rw [step_interfaceKind anno_names r0 node cs dn hknd hdn] at hstep
          cases hmk : mkFields anno_names cs with
          | error e => rw [hmk] at hstep; cases hstep
          | ok fs =>
            rw [hmk] at hstep
            injection hstep with he1
            subst he1
            obtain ⟨⟨ds, hds, hfs⟩, ⟨de, hde, hfe⟩, ⟨di, hdi, hfi⟩,
              ⟨du, hdu, hfu⟩⟩ := ih _ r h
            refine ⟨⟨ds, hds, ?_⟩, ⟨de, hde, ?_⟩, ⟨⟨dn, fs⟩ :: di, ?_, ?_⟩,
              ⟨du, hdu, ?_⟩⟩
            · rw [List.filter_cons]
              simp only [isStructNode, hknd, Bool.false_eq_true, if_false]
              exact hfs
            · rw [List.filter_cons]
              simp only [isEnumNode, hknd, Bool.false_eq_true, if_false]
              exact hfe
            · rw [hdi, List.append_assoc, List.singleton_append]
            · rw [List.filter_cons]
              simp only [isInterfaceNode, hknd, if_true]
              exact List.Forall₂.cons ⟨cs, hknd, hdn, mkFields_ok_names _ _ fs hmk⟩ hfi
            · rw [List.filter_cons]
              simp only [isUnkNode, hknd, Bool.false_eq_true, if_false]
              exact hfu
        | annoDecl =>
          rw [step_annoDecl anno_names r0 node dn hknd hdn] at hstep
          injection hstep with he1
          subst he1
          obtain ⟨⟨ds, hds, hfs⟩, ⟨de, hde, hfe⟩, ⟨di, hdi, hfi⟩,
            ⟨du, hdu, hfu⟩⟩ := ih _ r h
          refine ⟨⟨ds, hds, ?_⟩, ⟨de, hde, ?_⟩, ⟨di, hdi, ?_⟩,
            ⟨dn :: du, ?_, ?_⟩⟩
          · rw [List.filter_cons]
            simp only [isStructNode, hknd, Bool.false_eq_true, if_false]
            exact hfs
          · rw [List.filter_cons]
            simp only [isEnumNode, hknd, Bool.false_eq_true, if_false]
            exact hfe
          · rw [List.filter_cons]
            simp only [isInterfaceNode, hknd, Bool.false_eq_true, if_false]
            exact hfi
          · rw [hdu]
            simp [Results.add_unk]
          · rw [List.filter_cons]
            simp only [isUnkNode, hknd, if_true]
            exact List.Forall₂.cons hdn hfu
        | otherKind =>
          rw [step_otherKind anno_names r0 node dn hknd hdn] at hstep
          injection hstep with he1
          subst he1
          obtain ⟨⟨ds, hds, hfs⟩, ⟨de, hde, hfe⟩, ⟨di, hdi, hfi⟩,
            ⟨du, hdu, hfu⟩⟩ := ih _ r h
          refine ⟨⟨ds, hds, ?_⟩, ⟨de, hde, ?_⟩, ⟨di, hdi, ?_⟩,
            ⟨dn :: du, ?_, ?_⟩⟩
          · rw [List.filter_cons]
            simp only [isStructNode, hknd, Bool.false_eq_true, if_false]
            exact hfs
          · rw [List.filter_cons]
            simp only [isEnumNode, hknd, Bool.false_eq_true, if_false]
            exact hfe
          · rw [List.filter_cons]
            simp only [isInterfaceNode, hknd, Bool.false_eq_true, if_false]
            exact hfi
          · rw [hdu]
            simp [Results.add_unk]
          · rw [List.filter_cons]
            simp only [isUnkNode, hknd, if_true]
            exact List.Forall₂.cons hdn hfu

theorem step_error_decode (anno_names : List (Nat × String)) (results : Results)
    (node : Node) (e : RunError)
    (h : step anno_names results node = .error e) : e = RunError.decodeError := by
  cases hdn : node.displayName with
  | error u =>
    rw [step_name_error anno_names results node u hdn] at h
    injection h with he
    rw [he]
  | ok dn =>
    cases hknd : node.kind with
    | structKind cs =>
      rw [step_structKind anno_names results node cs dn hknd hdn] at h
      cases hmk : mkFields anno_names cs with
      | error e1 =>
        rw [hmk] at h
        injection h with he
        rw [← he]
        exact mkFields_error_decode anno_names cs e1 hmk
      | ok fs => rw [hmk] at h; cases h
    | enumKind cs =>
      rw [step_enumKind anno_names results node cs dn hknd hdn] at h
      cases hmk : mkFields anno_names cs with
      | error e1 =>
        rw [hmk] at h
        injection h with he
        rw [← he]
        exact mkFields_error_decode anno_names cs e1 hmk
      | ok fs => rw [hmk] at h; cases h
    | interfaceKind cs =>
      rw [step_interfaceKind anno_names results node cs dn hknd hdn] at h
      cases hmk : mkFields anno_names cs with
      | error e1 =>
        rw [hmk] at h
        injection h with he
        rw [← he]
        exact mkFields_error_decode anno_names cs e1 hmk
      | ok fs => rw [hmk] at h; cases h
    | annoDecl =>
      rw [step_annoDecl anno_names results node dn hknd hdn] at h
      cases h
    | otherKind =>
      rw [step_otherKind anno_names results node dn hknd hdn] at h
      cases h

theorem pass2From_error_decode (anno_names : List (Nat × String))
    (nodes : List Node) :
    ∀ (r0 : Results) (e : RunError), pass2From anno_names r0 nodes = .error e →
      e = RunError.decodeError := by
  induction nodes with
  | nil => intro r0 e h; cases h
  | cons node rest ih =>
    intro r0 e h
    rw [pass2From] at h
    cases hstep : step anno_names r0 node with
    | error e1 =>
      rw [hstep] at h
      injection h with he
      rw [← he]
      exact step_error_decode anno_names r0 node e1 hstep
    | ok r1 =>
      rw [hstep] at h
      exact ih r1 e h

theorem pass1Step_error_decode (m0 : List (Nat × String)) (node : Node)
    (e : RunError)
    (hpre : node.kind = NodeKind.annoDecl →
      ∀ dn, node.displayName = Except.ok dn →
        node.displayNamePrefixLen ≤ dn.length)
    (h : pass1Step m0 node = .error e) : e = RunError.decodeError := by
  rcases node with ⟨nid, ndn, nplen, nkind⟩
  cases nkind with
  | annoDecl =>
    cases ndn with
    | error u =>
      simp only [pass1Step] at h
      injection h with he
      rw [he]
    | ok dn =>
      simp only [pass1Step] at h
      rw [if_pos (hpre rfl dn rfl)] at h
      cases h
  | structKind cs => simp only [pass1Step] at h; cases h
  | enumKind cs => simp only [pass1Step] at h; cases h
  | interfaceKind cs => simp only [pass1Step] at h; cases h
  | otherKind => simp only [pass1Step] at h; cases h

theorem pass1From_error_decode (nodes : List Node) :
    (∀ node ∈ nodes, node.kind = NodeKind.annoDecl →
      ∀ dn, node.displayName = Except.ok dn →
        node.displayNamePrefixLen ≤ dn.length) →
    ∀ (m0 : List (Nat × String)) (e : RunError),
      pass1From m0 nodes = .error e → e = RunError.decodeError := by
  induction nodes with
  | nil => intro _ m0 e h; cases h
  | cons node rest ih =>
    intro hpre m0 e h
    rw [pass1From] at h
    cases hstep : pass1Step m0 node with
    | error e1 =>
      rw [hstep] at h
      injection h with he
      rw [← he]
      exact pass1Step_error_decode m0 node e1
        (hpre node (List.mem_cons_self _ _)) hstep
    | ok m1 =>
      rw [hstep] at h
      exact ih (fun x hx => hpre x (List.mem_cons_of_mem _ hx)) m1 e h

theorem mkField_ok_values (anno_names : List (Nat × String)) (child : Child)
    (f : Field) (h : mkField anno_names child = .ok f) :
    ∀ a ∈ child.annos, (mapGet anno_names a.id).isSome = true →
      ∃ p, a.value = Except.ok p := by
  unfold mkField at h
  cases hn : child.name with
  | error u => rw [hn] at h; cases h
  | ok nm =>
    rw [hn] at h
    exact annoFoldF_ok_values anno_names child.annos _ f h

theorem pass2From_ok_decodes (anno_names : List (Nat × String))
    (nodes : List Node) :
    ∀ (r0 r : Results), pass2From anno_names r0 nodes = .ok r →
      ∀ node ∈ nodes, (∃ dn, node.displayName = Except.ok dn) ∧
        ∀ c ∈ childrenOf node.kind, (∃ nm, c.name = Except.ok nm) ∧
          ∀ a ∈ c.annos, (mapGet anno_names a.id).isSome = true →
            ∃ p, a.value = Except.ok p := by
  induction nodes with
  | nil => intro r0 r _ node hmem; cases hmem
  | cons nd rest ih =>
    intro r0 r h node hmem
    rw [pass2From] at h
    cases hstep : step anno_names r0 nd with
    | error e => rw [hstep] at h; cases h
    | ok r1 =>
      rw [hstep] at h
      rcases List.mem_cons.mp hmem with he | hmem2
      · subst he
        cases hdn : node.displayName with
        | error u =>
          rw [step_name_error anno_names r0 node u hdn] at hstep
          cases hstep
        | ok dn =>
          refine ⟨⟨dn, rfl⟩, ?_⟩
          cases hknd : node.kind with
          | structKind cs =>
            rw [step_structKind anno_names r0 node cs dn hknd hdn] at hstep
            cases hmk : mkFields anno_names cs with
            | error e => rw [hmk] at hstep; cases hstep
            | ok fs =>
              intro c hc
              simp only [childrenOf] at hc
              obtain ⟨f, hf⟩ := mkFields_ok_forall anno_names cs fs hmk c hc
              exact ⟨⟨f.name, mkField_ok_name anno_names c f hf⟩,
                mkField_ok_values anno_names c f hf⟩
          | enumKind cs =>
            rw [step_enumKind anno_names r0 node cs dn hknd hdn] at hstep
            cases hmk : mkFields anno_names cs with
            | error e => rw [hmk] at hstep; cases hstep
            | ok fs =>
              intro c hc
              simp only [childrenOf] at hc
              obtain ⟨f, hf⟩ := mkFields_ok_forall anno_names cs fs hmk c hc
              exact ⟨⟨f.name, mkField_ok_name anno_names c f hf⟩,
                mkField_ok_values anno_names c f hf⟩
          | interfaceKind cs =>
            rw [step_interfaceKind anno_names r0 node cs dn hknd hdn] at hstep
            cases hmk : mkFields anno_names cs with
            | error e => rw [hmk] at hstep; cases hstep
            | ok fs =>
              intro c hc
              simp only [childrenOf] at hc
              obtain ⟨f, hf⟩ := mkFields_ok_forall anno_names cs fs hmk c hc
              exact ⟨⟨f.name, mkField_ok_name anno_names c f hf⟩,
                mkField_ok_values anno_names c f hf⟩
          | annoDecl =>
            intro c hc
            simp only [childrenOf] at hc
            cases hc
          | otherKind =>
            intro c hc
            simp only [childrenOf] at hc
            cases hc
      · exact ih r1 r h node hmem2

/-- Claim C3: for every record, enumeration or service-interface node,
the produced container holds exactly as many child entities as the node
declares, in declaration order (witnessed by the one-to-one, order-
preserving name correspondence), and the containers in each top-level
list appear in node-stream order (witnessed by the correspondence with
the kind-filtered stream). -/
theorem claim_C3 (anno_names : List (Nat × String)) (nodes : List Node)
    (r : Results) (h : pass2 anno_names nodes = .ok r) :
    List.Forall₂ relS (nodes.filter isStructNode) r.structs ∧
    List.Forall₂ relE (nodes.filter isEnumNode) r.enums ∧
    List.Forall₂ relI (nodes.filter isInterfaceNode) r.interfaces := by
  obtain ⟨⟨ds, hds, hfs⟩, ⟨de, hde, hfe⟩, ⟨di, hdi, hfi⟩, _⟩ :=
    pass2From_lists anno_names nodes ⟨[], [], [], []⟩ r h
  refine ⟨?_, ?_, ?_⟩
  · have hq : r.structs = ds := by simpa using hds
    rw [hq]
    exact hfs
  · have hq : r.enums = de := by simpa using hde
    rw [hq]
    exact hfe
  · have hq : r.interfaces = di := by simpa using hdi
    rw [hq]
    exact hfi

/-- Witness for C3 at a concrete input: one record node named "S" with a
single field "f" produces exactly one container with exactly one field,
in order. -/
theorem claim_C3_witness :
    List.Forall₂ relS
      ([(⟨1, Except.ok "S", 0,
          NodeKind.structKind [⟨Except.ok "f", []⟩]⟩ : Node)].filter isStructNode)
      [(⟨"S", [⟨"f", []⟩]⟩ : Struct)] := by
  have h := claim_C3 []
    [⟨1, Except.ok "S", 0, NodeKind.structKind [⟨Except.ok "f", []⟩]⟩]
    ⟨[⟨"S", [⟨"f", []⟩]⟩], [], [], []⟩ (by decide)
  exact h.1

/-- Counterexample to C5 as stated: an annotation-declaration node does
contribute to the output in pass 2 — the default arm of the kind match
also catches annotation declarations, so its display name is appended to
the unrecognized-names list, which is not empty afterwards. -/
theorem claim_C5_cex :
    pass2 [] [⟨7, Except.ok "Pkg.a", 4, NodeKind.annoDecl⟩] =
      Except.ok ⟨[], [], [], ["Pkg.a"]⟩ ∧
    ((⟨[], [], [], ["Pkg.a"]⟩ : Results).unk ≠ []) :=
  ⟨by decide, by decide⟩

/-- Claim C5 (amended): an annotation-declaration node produces no
container entity in pass 2 — the structs, enums and interfaces lists are
unchanged — but its display name is appended to the unrecognized-names
list, exactly as for an unrecognized kind. -/
theorem claim_C5_amended (anno_names : List (Nat × String)) (r : Results)
    (node : Node) (dn : String) (hk : node.kind = NodeKind.annoDecl)
    (hn : node.displayName = Except.ok dn) :
    ∃ r2, step anno_names r node = .ok r2 ∧ r2.structs = r.structs ∧
      r2.enums = r.enums ∧ r2.interfaces = r.interfaces ∧
      r2.unk = r.unk ++ [dn] :=
  ⟨r.add_unk dn, step_annoDecl anno_names r node dn hk hn, rfl, rfl, rfl, rfl⟩

/-- Witness for the amended C5 at a concrete input. -/
theorem claim_C5_witness :
    ∃ r2, step [] ⟨[], [], [], []⟩ ⟨7, Except.ok "Pkg.a", 4, NodeKind.annoDecl⟩ =
      .ok r2 ∧ r2.unk = [] ++ ["Pkg.a"] := by
  obtain ⟨r2, h1, _, _, _, h5⟩ := claim_C5_amended [] ⟨[], [], [], []⟩
    ⟨7, Except.ok "Pkg.a", 4, NodeKind.annoDecl⟩ "Pkg.a" rfl rfl
  exact ⟨r2, h1, h5⟩

/-- Claim C9: a node of unrecognized kind has its display name appended
verbatim to the unrecognized-names list, and the structs, enums and
interfaces lists are left unchanged by that node. -/
theorem claim_C9 (anno_names : List (Nat × String)) (r : Results)
    (node : Node) (dn : String) (hk : node.kind = NodeKind.otherKind)
    (hn : node.displayName = Except.ok dn) :
    ∃ r2, step anno_names r node = .ok r2 ∧ r2.structs = r.structs ∧
      r2.enums = r.enums ∧ r2.interfaces = r.interfaces ∧
      r2.unk = r.unk ++ [dn] :=
  ⟨r.add_unk dn, step_otherKind anno_names r node dn hk hn, rfl, rfl, rfl, rfl⟩

/-- Witness for C9 at a concrete input: a constant-like node named
"myConst" lands verbatim in the catch-all list. -/
theorem claim_C9_witness :
    ∃ r2, step [] ⟨[], [], [], []⟩ ⟨3, Except.ok "myConst", 0, NodeKind.otherKind⟩ =
      .ok r2 ∧ r2.unk = [] ++ ["myConst"] := by
  obtain ⟨r2, h1, _, _, _, h5⟩ := claim_C9 [] ⟨[], [], [], []⟩
    ⟨3, Except.ok "myConst", 0, NodeKind.otherKind⟩ "myConst" rfl rfl
  exact ⟨r2, h1, h5⟩

/-- Claim C10: pass 2 never panics on an index access: each current-
container index is computed right after the container was appended and
each child index only after that child was appended, so for every index
and node stream the reducer returns a result model or a decode error,
never the modelled panic. -/
theorem claim_C10 (anno_names : List (Nat × String)) (nodes : List Node) :
    isPanicked (pass2 anno_names nodes) = false := by
  cases hq : pass2 anno_names nodes with
  | ok r => rfl
  | error e =>
    have he := pass2From_error_decode anno_names nodes ⟨[], [], [], []⟩ e hq
    rw [he]
    rfl

/-- Counterexample to C8 as stated: an annotation application whose
payload cannot be decoded but whose identity is not in the index is
skipped silently — the resolver consults the index before decoding the
payload — so the run completes and a result model is produced. -/
theorem claim_C8_cex :
    (∃ node ∈ [(⟨1, Except.ok "S", 0,
        NodeKind.structKind [⟨Except.ok "f", [⟨9, Except.error ()⟩]⟩]⟩ : Node)],
      ∃ c ∈ childrenOf node.kind, ∃ a ∈ c.annos, a.value = Except.error ()) ∧
    run [⟨1, Except.ok "S", 0,
        NodeKind.structKind [⟨Except.ok "f", [⟨9, Except.error ()⟩]⟩]⟩] =
      Except.ok ⟨[⟨"S", [⟨"f", []⟩]⟩], [], [], []⟩ :=
  ⟨by decide, by decide⟩

/-- Claim C8 (amended): if decoding any node display name fails, or any
child local name fails, or any annotation payload whose identity is
present in the completed index fails, then — provided the prefix lengths
of annotation declarations are in bounds, so pass 1 does not panic
first — the whole run returns the decode error and no result model is
produced. -/
theorem claim_C8_amended (nodes : List Node)
    (hpre : ∀ node ∈ nodes, node.kind = NodeKind.annoDecl →
      ∀ dn, node.displayName = Except.ok dn →
        node.displayNamePrefixLen ≤ dn.length)
    (hbad :
      (∃ node ∈ nodes, node.displayName = Except.error ()) ∨
      (∃ node ∈ nodes, ∃ c ∈ childrenOf node.kind, c.name = Except.error ()) ∨
      (∃ m, pass1 nodes = Except.ok m ∧ ∃ node ∈ nodes,
        ∃ c ∈ childrenOf node.kind, ∃ a ∈ c.annos,
          (mapGet m a.id).isSome = true ∧ a.value = Except.error ())) :
    run nodes = Except.error RunError.decodeError := by
  cases hp : pass1 nodes with
  | error e =>
    have he := pass1From_error_decode nodes hpre [] e hp
    subst he
    simp [run, hp]
  | ok m =>
    cases hq : pass2 m nodes with
    | error e =>
      have he := pass2From_error_decode m nodes ⟨[], [], [], []⟩ e hq
      subst he
      simp only [run, hp]
      exact hq
    | ok r =>
      exfalso
      have hdec := pass2From_ok_decodes m nodes ⟨[], [], [], []⟩ r hq
      rcases hbad with ⟨node, hmem, hbadn⟩ | ⟨node, hmem, c, hc, hbadc⟩ |
        ⟨m2, hm2, node, hmem, c, hc, a, ha, hsome, hbada⟩
      · obtain ⟨⟨dn, hdn⟩, _⟩ := hdec node hmem
        rw [hbadn] at hdn
        cases hdn
      · obtain ⟨_, hch⟩ := hdec node hmem
        obtain ⟨⟨nm, hnm⟩, _⟩ := hch c hc
        rw [hbadc] at hnm
        cases hnm
      · rw [hp] at hm2
        injection hm2 with hmeq
        subst hmeq
        obtain ⟨_, hch⟩ := hdec node hmem
        obtain ⟨_, hann⟩ := hch c hc
        obtain ⟨p, hv⟩ := hann a ha hsome
        rw [hbada] at hv
        cases hv

/-- Witness for the amended C8 at a concrete input: a single node whose
display name fails to decode makes the whole run abort with the decode
error. -/
theorem claim_C8_amended_witness :
    run [(⟨1, Except.error (), 0, NodeKind.otherKind⟩ : Node)] =
      Except.error RunError.decodeError := by
  apply claim_C8_amended
  · intro node hn hk
    simp only [List.mem_singleton] at hn
    subst hn
    exact absurd hk (by decide)
  · exact Or.inl ⟨_, List.mem_singleton.mpr rfl, rfl⟩

end CapnpParse
